import Mathlib

/-!
Verification of the PDF Professor document-processing backend
(`server/index.js`): the chunker, the Gemini client's retry policy, the
translation orchestrator, the field extractor, the transaction filters and
the `/api/process-document` pipeline, shallowly embedded in Lean.

JavaScript strings are modelled as `String` / `List Char`; JSON values as
an inductive `Json`; platform primitives (`fetch`, `JSON.parse`,
`franc`, `pdf-parse`, Supabase storage) are parameters of the embedded
functions; thrown exceptions are modelled with `Except String`.
-/

namespace PdfProfessor

/-- JSON values, as produced by `JSON.parse` on the model output and stored
in the `parsed_data` column. Numbers are modelled as integers (the claims
only need their existence, and extracted amounts are integral). -/
inductive Json where
  | jnull
  | jbool (b : Bool)
  | jnum (n : Int)
  | jstr (s : String)
  | jarr (elems : List Json)
  | jobj (fields : List (String × Json))
deriving Repr

/-- `Array.isArray` on a parsed JSON value. -/
def isArrayJ : Json → Bool
  | .jarr _ => true
  | _ => false

/-- JavaScript truthiness of a field value (`none` models `undefined`). -/
def truthy : Option Json → Bool
  | none => false
  | some .jnull => false
  | some (.jbool b) => b
  | some (.jnum n) => decide (n ≠ 0)
  | some (.jstr s) => !s.isEmpty
  | some (.jarr _) => true
  | some (.jobj _) => true

/-- Substring test on character lists, modelling JavaScript
`haystack.includes(needle)` (contiguous occurrence; the empty needle
always matches). -/
def listIncludes (hay needle : List Char) : Bool :=
  if needle.isPrefixOf hay then true
  else
    match hay with
    | [] => false
    | _ :: t => listIncludes t needle

/-- `haystack.includes(needle)` on strings. -/
def strIncludes (hay needle : String) : Bool :=
  listIncludes hay.toList needle.toList

/-- JavaScript `s.trim()` on the character-list level: whitespace is
removed from both ends. -/
def trimChars (cs : List Char) : List Char :=
  ((cs.dropWhile Char.isWhitespace).reverse.dropWhile Char.isWhitespace).reverse

/-- JavaScript `s.trim()` on strings. -/
def jsTrim (s : String) : String :=
  (trimChars s.toList).asString

-- ------------------------------------------------------------------
-- Chunker (`chunkText`, server/index.js lines 313-317)
-- ------------------------------------------------------------------

/-- Fuel-driven loop of `chunkText`: each iteration takes `size`
characters and continues on the rest, mirroring
`for (let i = 0; i < text.length; i += size) chunks.push(text.slice(i, i + size))`.
The fuel is an upper bound on the number of remaining characters; callers
pass `text.length`, which suffices because every iteration with
`0 < size` consumes at least one character. -/
def chunkGo : Nat → List Char → Nat → List (List Char)
  | _, [], _ => []
  | 0, _, _ => []
  | fuel + 1, text, size => text.take size :: chunkGo fuel (text.drop size) size

/-- `chunkText(text, size)` from server/index.js lines 313-317.  The JS
loop does not terminate for `size = 0` (the index never advances); that
degenerate input, never reached by the program (the only call site uses
the default `size = 15000`), is modelled as producing no chunks. -/
def chunkText (text : List Char) (size : Nat) : List (List Char) :=
  if size = 0 then [] else chunkGo text.length text size

theorem chunkGo_join (size : Nat) (hsize : 0 < size) :
    ∀ fuel text, List.length text ≤ fuel → (chunkGo fuel text size).flatten = text := by
  intro fuel
  induction fuel with
  | zero =>
    intro text ht
    have : text = [] := List.eq_nil_of_length_eq_zero (Nat.le_zero.mp ht)
    subst this
    rfl
  | succ n ih =>
    intro text ht
    cases text with
    | nil => rfl
    | cons c rest =>
      have hlen : (List.drop size (c :: rest)).length ≤ n := by
        rw [List.length_drop]
        simp only [List.length_cons] at ht ⊢
        omega
      simp only [chunkGo, List.flatten]
      rw [ih _ hlen, List.take_append_drop]

theorem chunkGo_sizes (size : Nat) :
    ∀ fuel text c, c ∈ chunkGo fuel text size → c.length ≤ size := by
  intro fuel
  induction fuel with
  | zero =>
    intro text c hc
    cases text <;> simp [chunkGo] at hc
  | succ n ih =>
    intro text c hc
    cases text with
    | nil => simp [chunkGo] at hc
    | cons a rest =>
      simp only [chunkGo, List.mem_cons] at hc
      rcases hc with h | h
      · subst h
        rw [List.length_take]
        exact Nat.min_le_left _ _
      · exact ih _ _ h

/-- C5: for every text and positive chunk size, the chunks are segments of
at most `size` characters whose concatenation in order is exactly the
input, and the empty input yields no chunks. -/
theorem chunkText_roundtrip (text : List Char) (size : Nat) (hsize : 0 < size) :
    (chunkText text size).flatten = text ∧
      (∀ c ∈ chunkText text size, c.length ≤ size) ∧
      chunkText [] size = [] := by
  have hne : ¬ size = 0 := Nat.pos_iff_ne_zero.mp hsize
  refine ⟨?_, ?_, ?_⟩
  · unfold chunkText
    rw [if_neg hne]
    exact chunkGo_join size hsize _ text le_rfl
  · intro c hc
    unfold chunkText at hc
    rw [if_neg hne] at hc
    exact chunkGo_sizes size _ _ _ hc
  · unfold chunkText
    rw [if_neg hne]
    rfl

/-- Witness for `chunkText_roundtrip` at text `"abcde"` and size `2`. -/
theorem chunkText_roundtrip_witness :
    (chunkText ['a', 'b', 'c', 'd', 'e'] 2).flatten = ['a', 'b', 'c', 'd', 'e'] ∧
      chunkText [] 2 = [] :=
  ⟨(chunkText_roundtrip ['a', 'b', 'c', 'd', 'e'] 2 (by decide)).1,
    (chunkText_roundtrip ['a', 'b', 'c', 'd', 'e'] 2 (by decide)).2.2⟩

-- ------------------------------------------------------------------
-- Field extractor (`extractTransactionFields`, server/index.js 362-385)
-- ------------------------------------------------------------------

/-- The characters of the tagged fence marker matched first by the regex
alternation in `response.replace(/```json|```/g, '')`. -/
def fenceTag : List Char := ['`', '`', '`', 'j', 's', 'o', 'n']

/-- The characters of the bare triple-backtick fence marker. -/
def fence : List Char := ['`', '`', '`']

/-- Fuel-driven left-to-right scan of
`response.replace(/```json|```/g, '')`: at each position the scan first
tries the alternative that the regex alternation prefers (the tagged
marker), then the bare marker, and otherwise keeps the character.  The
fuel bounds the number of remaining characters; every step consumes at
least one, so `cs.length` suffices. -/
def stripGo : Nat → List Char → List Char
  | 0, cs => cs
  | f + 1, cs =>
    if cs.take 7 = fenceTag then stripGo f (cs.drop 7)
    else if cs.take 3 = fence then stripGo f (cs.drop 3)
    else
      match cs with
      | [] => []
      | c :: rest => c :: stripGo f rest

/-- Removal of all code-fence markers, modelling
`response.replace(/```json|```/g, '')` on server/index.js line 375. -/
def stripFences (cs : List Char) : List Char := stripGo cs.length cs

/-- `const clean = response.replace(/```json|```/g, '').trim()`
(server/index.js line 375). -/
def cleanResponse (s : String) : String :=
  (trimChars (stripFences s.toList)).asString

/-- `extractTransactionFields` (server/index.js lines 362-385), modelled
over the two platform effects it uses: `parse` stands for `JSON.parse`
(returning `none` where `JSON.parse` throws), and `geminiResult` is the
outcome of the `callGemini(prompt)` call — an error there propagates to
the caller, while everything after it is inside the `try`/`catch` that
degrades to an empty transaction list. -/
def extractTransactionFields (parse : String → Option Json)
    (geminiResult : Except String String) : Except String (List Json) :=
  match geminiResult with
  | .error e => .error e
  | .ok response =>
    let clean := cleanResponse response
    match parse clean with
    | some (.jarr xs) => .ok xs
    | _ => .ok []

/-- Whether an optional parse result is a JSON array
(`Array.isArray(json)` guarded by the parse having succeeded). -/
def isArrOpt : Option Json → Bool
  | some (.jarr _) => true
  | _ => false

/-- On a successful Gemini call the extractor is the parse of the cleaned
response, defaulting to the empty list whenever that parse is not an
array. -/
theorem extractTransactionFields_ok (parse : String → Option Json) (response : String) :
    extractTransactionFields parse (.ok response) =
      .ok (match parse (cleanResponse response) with
            | some (.jarr xs) => xs
            | _ => []) := by
  simp only [extractTransactionFields]
  cases parse (cleanResponse response) with
  | none => rfl
  | some j => cases j <;> rfl

/-- C4: the extractor fails soft on malformed model output — a parse
failure or a non-array parse yields the empty transaction list, every
successful Gemini response yields an `ok` result (never a thrown error),
and only a failure of the Gemini call itself propagates as an error. -/
theorem extractTransactionFields_soft_fail (parse : String → Option Json) :
    (∀ response : String, isArrOpt (parse (cleanResponse response)) = false →
        extractTransactionFields parse (.ok response) = .ok []) ∧
      (∀ response : String, ∃ xs, extractTransactionFields parse (.ok response) = .ok xs) ∧
      (∀ e : String, extractTransactionFields parse (.error e) = .error e) := by
  refine ⟨?_, ?_, ?_⟩
  · intro response h
    rw [extractTransactionFields_ok]
    revert h
    cases hp : parse (cleanResponse response) with
    | none => intro h; rfl
    | some j =>
      intro h
      cases j <;> first | rfl | simp [isArrOpt] at h
  · intro response
    rw [extractTransactionFields_ok]
    exact ⟨_, rfl⟩
  · intro e
    rfl

theorem stripGo_nil (f : Nat) : stripGo f [] = [] := by
  cases f with
  | zero => rfl
  | succ n => rfl

/-- The scan of `stripFences` does not depend on the fuel as long as the
fuel covers the number of remaining characters. -/
theorem stripGo_congr : ∀ f g cs, cs.length ≤ f → cs.length ≤ g →
    stripGo f cs = stripGo g cs := by
  intro f
  induction f with
  | zero =>
    intro g cs hf _
    have : cs = [] := List.eq_nil_of_length_eq_zero (Nat.le_zero.mp hf)
    subst this
    rw [stripGo_nil, stripGo_nil]
  | succ n ih =>
    intro g cs hf hg
    cases cs with
    | nil => rw [stripGo_nil, stripGo_nil]
    | cons c rest =>
      obtain ⟨m, rfl⟩ : ∃ m, g = m + 1 := by
        refine ⟨g - 1, ?_⟩
        simp only [List.length_cons] at hg
        omega
      simp only [List.length_cons] at hf hg
      simp only [stripGo]
      by_cases h7 : (c :: rest).take 7 = fenceTag
      · rw [if_pos h7, if_pos h7]
        exact ih m _ (by simp only [List.length_drop, List.length_cons]; omega)
          (by simp only [List.length_drop, List.length_cons]; omega)
      · rw [if_neg h7, if_neg h7]
        by_cases h3 : (c :: rest).take 3 = fence
        · rw [if_pos h3, if_pos h3]
          exact ih m _ (by simp only [List.length_drop, List.length_cons]; omega)
            (by simp only [List.length_drop, List.length_cons]; omega)
        · rw [if_neg h3, if_neg h3]
          exact congrArg (c :: ·) (ih m rest (by omega) (by omega))

/-- One-step characterization of `stripFences`, hiding the fuel: the scan
prefers the tagged marker, then the bare marker, and otherwise keeps one
character. -/
theorem stripFences_eq_step (cs : List Char) :
    stripFences cs =
      if cs.take 7 = fenceTag then stripFences (cs.drop 7)
      else if cs.take 3 = fence then stripFences (cs.drop 3)
      else
        match cs with
        | [] => []
        | c :: rest => c :: stripFences rest := by
  cases cs with
  | nil => rfl
  | cons c rest =>
    show stripGo (c :: rest).length (c :: rest) = _
    rw [List.length_cons]
    simp only [stripGo]
    by_cases h7 : (c :: rest).take 7 = fenceTag
    · rw [if_pos h7, if_pos h7]
      exact stripGo_congr _ _ _
        (by simp only [List.length_drop, List.length_cons]; omega) le_rfl
    · rw [if_neg h7, if_neg h7]
      by_cases h3 : (c :: rest).take 3 = fence
      · rw [if_pos h3, if_pos h3]
        exact stripGo_congr _ _ _
          (by simp only [List.length_drop, List.length_cons]; omega) le_rfl
      · rw [if_neg h3, if_neg h3]
        rfl

/-- Removing the fence markers from `t` followed by a trailing bare fence
gives the same characters as removing them from `t` alone: the trailing
`⟍⟍⟍` marker (written with backticks in the source) is dropped by the
scan and cannot complete a tagged marker, because the tag's letters never
occur among the appended backticks. -/
theorem stripFences_append_fence_aux :
    ∀ n (t : List Char), t.length ≤ n →
      stripFences (t ++ fence) = stripFences t := by
  intro n
  induction n with
  | zero =>
    intro t ht
    have : t = [] := List.eq_nil_of_length_eq_zero (Nat.le_zero.mp ht)
    subst this
    decide
  | succ n ih =>
    intro t ht
    by_cases hA : t.take 7 = fenceTag
    · have h7 : 7 ≤ t.length := by
        have hl := congrArg List.length hA
        rw [List.length_take] at hl
        have : fenceTag.length = 7 := rfl
        omega
      rw [stripFences_eq_step (t ++ fence), stripFences_eq_step t,
        List.take_append_of_le_length h7, if_pos hA, if_pos hA,
        List.drop_append_of_le_length h7]
      exact ih (t.drop 7) (by simp only [List.length_drop]; omega)
    · by_cases hA' : (t ++ fence).take 7 = fenceTag
      · exfalso
        have hlt : t.length < 7 := by
          by_contra hcon
          push_neg at hcon
          rw [List.take_append_of_le_length hcon] at hA'
          exact hA hA'
        have hge : 4 ≤ t.length := by
          have hl := congrArg List.length hA'
          rw [List.length_take, List.length_append] at hl
          have : fenceTag.length = 7 := rfl
          have : fence.length = 3 := rfl
          omega
        have heq : fence.take (7 - t.length) = fenceTag.drop t.length := by
          have h2 := congrArg (List.drop t.length) hA'
          rw [List.drop_take, List.drop_left] at h2
          exact h2
        have hcases : t.length = 4 ∨ t.length = 5 ∨ t.length = 6 := by omega
        rcases hcases with h | h | h <;> rw [h] at heq <;>
          exact absurd heq (by decide)
      · by_cases hB : t.take 3 = fence
        · have h3 : 3 ≤ t.length := by
            have hl := congrArg List.length hB
            rw [List.length_take] at hl
            have : fence.length = 3 := rfl
            omega
          rw [stripFences_eq_step (t ++ fence), stripFences_eq_step t,
            if_neg hA', if_neg hA,
            List.take_append_of_le_length h3, if_pos hB, if_pos hB,
            List.drop_append_of_le_length h3]
          exact ih (t.drop 3) (by simp only [List.length_drop]; omega)
        · by_cases hB' : (t ++ fence).take 3 = fence
          · have hlt : t.length < 3 := by
              by_contra hcon
              push_neg at hcon
              rw [List.take_append_of_le_length hcon] at hB'
              exact hB hB'
            have ht' : t = fence.take t.length := by
              have h2 := congrArg (List.take t.length) hB'
              rw [List.take_take, Nat.min_eq_left (Nat.le_of_lt hlt),
                List.take_left' rfl] at h2
              exact h2
            have hcases : t.length = 0 ∨ t.length = 1 ∨ t.length = 2 := by
              omega
            rcases hcases with h | h | h <;> rw [h] at ht' <;>
              · rw [ht']
                decide
          · cases t with
            | nil => exact absurd (by decide) hB'
            | cons c rest =>
              rw [stripFences_eq_step ((c :: rest) ++ fence),
                stripFences_eq_step (c :: rest),
                if_neg hA', if_neg hA, if_neg hB', if_neg hB]
              show c :: stripFences (rest ++ fence) = c :: stripFences rest
              exact congrArg (c :: ·)
                (ih rest (by simp only [List.length_cons] at ht; omega))

theorem stripFences_append_fence (t : List Char) :
    stripFences (t ++ fence) = stripFences t :=
  stripFences_append_fence_aux t.length t le_rfl

theorem stripFences_tag_prefix (x : List Char) :
    stripFences (fenceTag ++ x) = stripFences x := by
  rw [stripFences_eq_step (fenceTag ++ x), @List.take_left' Char fenceTag x 7 rfl,
    if_pos rfl, @List.drop_left' Char fenceTag x 7 rfl]

theorem stripFences_fence_prefix (x : List Char)
    (hx : x.take 4 ≠ ['j', 's', 'o', 'n']) :
    stripFences (fence ++ x) = stripFences x := by
  have h7 : (fence ++ x).take 7 ≠ fenceTag := by
    intro hcon
    apply hx
    have h2 := congrArg (List.drop 3) hcon
    rw [List.drop_take, @List.drop_left' Char fence x 3 rfl] at h2
    exact h2
  rw [stripFences_eq_step (fence ++ x), if_neg h7, @List.take_left' Char fence x 3 rfl,
    if_pos rfl, @List.drop_left' Char fence x 3 rfl]

/-- Cleaning a response that wraps `t` in a tagged leading fence and a
trailing fence gives the clean text of `t` itself. -/
theorem cleanResponse_tag_wrap (t : List Char) :
    cleanResponse (fenceTag ++ t ++ fence).asString = cleanResponse t.asString := by
  unfold cleanResponse
  have : stripFences ((fenceTag ++ t ++ fence).asString).toList = stripFences t := by
    show stripFences ((fenceTag ++ t) ++ fence) = stripFences t
    rw [stripFences_append_fence, stripFences_tag_prefix]
  rw [this]
  rfl

/-- Cleaning a response that wraps `t` in a bare leading fence and a
trailing fence gives the clean text of `t`, provided `t` does not itself
begin with the tag letters `json` (no JSON array text does). -/
theorem cleanResponse_fence_wrap (t : List Char)
    (hjson : t.take 4 ≠ ['j', 's', 'o', 'n']) :
    cleanResponse (fence ++ t ++ fence).asString = cleanResponse t.asString := by
  unfold cleanResponse
  have : stripFences ((fence ++ t ++ fence).asString).toList = stripFences t := by
    show stripFences ((fence ++ t) ++ fence) = stripFences t
    rw [stripFences_append_fence, stripFences_fence_prefix t hjson]
  rw [this]
  rfl

/-- C8: wrapping a response text in Markdown code fences — a leading
triple-backtick fence, optionally tagged `json`, and a trailing fence —
does not change the extractor's result, and when the cleaned unwrapped
text parses as a JSON array the wrapped response yields exactly that
array's elements.  The proviso that the text not begin with the four
letters `json` is satisfied by every JSON array text (such a text starts
with whitespace or `[`). -/
theorem extract_fence_stripping (parse : String → Option Json) (t : List Char)
    (hjson : t.take 4 ≠ ['j', 's', 'o', 'n']) :
    (extractTransactionFields parse (.ok (fenceTag ++ t ++ fence).asString) =
        extractTransactionFields parse (.ok t.asString)) ∧
      (extractTransactionFields parse (.ok (fence ++ t ++ fence).asString) =
        extractTransactionFields parse (.ok t.asString)) ∧
      ∀ xs, parse (cleanResponse t.asString) = some (.jarr xs) →
        extractTransactionFields parse (.ok (fenceTag ++ t ++ fence).asString) =
          .ok xs := by
  refine ⟨?_, ?_, ?_⟩
  · rw [extractTransactionFields_ok, extractTransactionFields_ok,
      cleanResponse_tag_wrap]
  · rw [extractTransactionFields_ok, extractTransactionFields_ok,
      cleanResponse_fence_wrap t hjson]
  · intro xs hxs
    rw [extractTransactionFields_ok, cleanResponse_tag_wrap, hxs]

/-- Witness for `extract_fence_stripping`: the array text `[1]` wrapped in
tagged fences extracts to the same single-element array as the bare text,
under a `JSON.parse` model defined on exactly that text. -/
theorem extract_fence_stripping_witness :
    extractTransactionFields
        (fun s => if s = "[1]" then some (.jarr [.jnum 1]) else none)
        (.ok (fenceTag ++ ['[', '1', ']'] ++ fence).asString) =
      .ok [.jnum 1] :=
  (extract_fence_stripping
      (fun s => if s = "[1]" then some (.jarr [.jnum 1]) else none)
      ['[', '1', ']'] (by decide)).2.2 [.jnum 1] (by rfl)

/-- Witness for `extractTransactionFields_soft_fail` with a `JSON.parse`
model that always fails, a non-JSON response, and a failing Gemini call. -/
theorem extractTransactionFields_soft_fail_witness :
    extractTransactionFields (fun _ => none) (.ok "not json at all") = .ok [] ∧
      extractTransactionFields (fun _ => none) (.error "Gemini 500: boom") =
        .error "Gemini 500: boom" :=
  ⟨(extractTransactionFields_soft_fail (fun _ => none)).1 "not json at all" rfl,
    (extractTransactionFields_soft_fail (fun _ => none)).2.2 "Gemini 500: boom"⟩

-- ------------------------------------------------------------------
-- Gemini client retry policy (`callGemini`, server/index.js 274-294)
-- ------------------------------------------------------------------

/-- Outcome of one `fetch` of the Gemini endpoint: either the promise
rejects (network error) or a response arrives with an HTTP status, a raw
body (`res.text()`) and, for parsed bodies, the optional candidate text
`data.candidates?.[0]?.content?.parts?.[0]?.text`. -/
inductive FetchResult where
  | netError (msg : String)
  | resp (status : Nat) (body : String) (candidateText : Option String)

/-- `res.ok`: HTTP status in the 200-299 range. -/
def resOk (status : Nat) : Bool :=
  200 ≤ status && status ≤ 299

/-- What one run of the `retry` callback in `callGemini` does with its
fetch result.  An ok response resolves with the trimmed candidate text
(defaulting to the empty string).  A non-ok status below 500 calls
`bail(new Error(txt))` — which rejects the outer promise — and then,
because the source does not `return` after `bail`, still falls through to
`throw new Error('Gemini <status>: <txt>')`; both errors are recorded
here.  Any other non-ok status, or a network-level rejection of `fetch`
itself, just throws. -/
inductive AttemptEffect where
  | resolved (text : String)
  | bailThrew (bailErr : String) (thrownErr : String)
  | threw (err : String)

def geminiAttempt : FetchResult → AttemptEffect
  | .netError msg => .threw msg
  | .resp status body candidateText =>
    if resOk status then .resolved (jsTrim (candidateText.getD ""))
    else if status < 500 then
      .bailThrew body ("Gemini " ++ toString status ++ ": " ++ body)
    else .threw ("Gemini " ++ toString status ++ ": " ++ body)

/-- The state of one `async-retry` run: the settlement of the promise it
returned (first `resolve`/`reject` wins, later ones are no-ops), the
errors passed to `operation.retry` so far (node-retry's `_errors`), and
the number of fetches performed. -/
structure RetryState where
  settled : Option (Except String String)
  errors : List String
  fetches : Nat

/-- A `resolve`/`reject` of the outer promise: only the first settlement
takes effect. -/
def settle (st : RetryState) (v : Except String String) : RetryState :=
  match st.settled with
  | some _ => st
  | none => ⟨some v, st.errors, st.fetches⟩

/-- `operation.retry(err)` pushing `err` onto node-retry's `_errors`. -/
def recordError (st : RetryState) (e : String) : RetryState :=
  ⟨st.settled, st.errors ++ [e], st.fetches⟩

/-- One more `fetch` of the endpoint. -/
def countFetch (st : RetryState) : RetryState :=
  ⟨st.settled, st.errors, st.fetches + 1⟩

/-- node-retry's `RetryOperation.mainError()`: the recorded error whose
message occurs most often, later occurrences winning ties (`count >=
mainErrorCount`). -/
def mainErrorGo : List String → List (String × Nat) → Option String → Nat →
    Option String
  | [], _, main, _ => main
  | m :: rest, counts, main, mainCount =>
    let c := ((counts.lookup m).getD 0) + 1
    if mainCount ≤ c then mainErrorGo rest ((m, c) :: counts) (some m) c
    else mainErrorGo rest ((m, c) :: counts) main mainCount

def mainError (errors : List String) : Option String :=
  mainErrorGo errors [] none 0

/-- The `async-retry` driver with the configuration of `callGemini`
(`retries: 2`): `k` counts the attempts already begun, `remaining` the
retries still allowed.  Each attempt fetches once.  A resolution stops
the attempts (further `op.retry` calls only happen in `onError`).  A
thrown error — including the throw that follows a `bail`, since the
callback does not return after bailing — goes through `onError`, which
records it and either schedules the next attempt or, with no retries
left, rejects with `op.mainError()`; all settlements after the first are
no-ops. -/
def retryRun (env : Nat → FetchResult) : Nat → Nat → RetryState → RetryState
  | k, remaining, st =>
    match geminiAttempt (env k) with
    | .resolved t => settle (countFetch st) (.ok t)
    | .bailThrew b e =>
      match remaining with
      | 0 =>
        settle (recordError (settle (countFetch st) (.error b)) e)
          (.error
            ((mainError (recordError (settle (countFetch st) (.error b)) e).errors).getD e))
      | r + 1 =>
        retryRun env (k + 1) r (recordError (settle (countFetch st) (.error b)) e)
    | .threw e =>
      match remaining with
      | 0 =>
        settle (recordError (countFetch st) e)
          (.error ((mainError (recordError (countFetch st) e).errors).getD e))
      | r + 1 => retryRun env (k + 1) r (recordError (countFetch st) e)

/-- `callGemini` (server/index.js lines 274-294) over an environment
giving the fetch result of each successive attempt: the value the
caller's `await` sees, together with the total number of fetches the run
performs (dead attempts after an early settlement included). -/
def callGemini (env : Nat → FetchResult) : Except String String × Nat :=
  ((retryRun env 0 2 ⟨none, [], 0⟩).settled.getD (.error ""),
    (retryRun env 0 2 ⟨none, [], 0⟩).fetches)

theorem geminiAttempt_4xx (status : Nat) (body : String) (cand : Option String)
    (h4 : 400 ≤ status) (h9 : status ≤ 499) :
    geminiAttempt (.resp status body cand) =
      .bailThrew body ("Gemini " ++ toString status ++ ": " ++ body) := by
  have hok : resOk status = false := by
    unfold resOk
    simp only [Bool.and_eq_false_iff, decide_eq_false_iff_not]
    omega
  have hlt : status < 500 := by omega
  simp [geminiAttempt, hok, hlt]

theorem retryRun_resolved (env : Nat → FetchResult) (k r : Nat)
    (st : RetryState) (t : String)
    (he : geminiAttempt (env k) = .resolved t) :
    retryRun env k r st = settle (countFetch st) (.ok t) := by
  conv_lhs => rw [retryRun]
  rw [he]

theorem retryRun_bailThrew_step (env : Nat → FetchResult) (k r : Nat)
    (st : RetryState) (b e : String)
    (he : geminiAttempt (env k) = .bailThrew b e) :
    retryRun env k (r + 1) st =
      retryRun env (k + 1) r
        (recordError (settle (countFetch st) (.error b)) e) := by
  conv_lhs => rw [retryRun]
  rw [he]

theorem retryRun_bailThrew_last (env : Nat → FetchResult) (k : Nat)
    (st : RetryState) (b e : String)
    (he : geminiAttempt (env k) = .bailThrew b e) :
    retryRun env k 0 st =
      settle (recordError (settle (countFetch st) (.error b)) e)
        (.error
          ((mainError (recordError (settle (countFetch st) (.error b)) e).errors).getD e)) := by
  conv_lhs => rw [retryRun]
  rw [he]

theorem retryRun_threw_step (env : Nat → FetchResult) (k r : Nat)
    (st : RetryState) (e : String)
    (he : geminiAttempt (env k) = .threw e) :
    retryRun env k (r + 1) st =
      retryRun env (k + 1) r (recordError (countFetch st) e) := by
  conv_lhs => rw [retryRun]
  rw [he]

theorem retryRun_threw_last (env : Nat → FetchResult) (k : Nat)
    (st : RetryState) (e : String)
    (he : geminiAttempt (env k) = .threw e) :
    retryRun env k 0 st =
      settle (recordError (countFetch st) e)
        (.error ((mainError (recordError (countFetch st) e).errors).getD e)) := by
  conv_lhs => rw [retryRun]
  rw [he]

theorem settle_of_settled (st : RetryState) (w : Except String String)
    (v : Except String String) (h : st.settled = some v) : settle st w = st := by
  unfold settle
  rw [h]

/-- Once the outer promise is settled, the remaining (dead) attempts
cannot change the settlement. -/
theorem retryRun_settled_persist (env : Nat → FetchResult) :
    ∀ (r k : Nat) (st : RetryState) (v : Except String String),
      st.settled = some v → (retryRun env k r st).settled = some v := by
  intro r
  induction r with
  | zero =>
    intro k st v h
    cases hg : geminiAttempt (env k) with
    | resolved t =>
      rw [retryRun_resolved env k 0 st t hg,
        settle_of_settled (countFetch st) _ v h]
      exact h
    | bailThrew b e =>
      rw [retryRun_bailThrew_last env k st b e hg,
        settle_of_settled (countFetch st) _ v h,
        settle_of_settled (recordError (countFetch st) e) _ v h]
      exact h
    | threw e =>
      rw [retryRun_threw_last env k st e hg,
        settle_of_settled (recordError (countFetch st) e) _ v h]
      exact h
  | succ n ih =>
    intro k st v h
    cases hg : geminiAttempt (env k) with
    | resolved t =>
      rw [retryRun_resolved env k (n + 1) st t hg,
        settle_of_settled (countFetch st) _ v h]
      exact h
    | bailThrew b e =>
      rw [retryRun_bailThrew_step env k n st b e hg,
        settle_of_settled (countFetch st) _ v h]
      exact ih (k + 1) (recordError (countFetch st) e) v h
    | threw e =>
      rw [retryRun_threw_step env k n st e hg]
      exact ih (k + 1) (recordError (countFetch st) e) v h

theorem mainError_three_same (m : String) : mainError [m, m, m] = some m := by
  simp [mainError, mainErrorGo, List.lookup]

/-- Counterexample to C3 as stated: a stub endpoint that always answers
400 is fetched 3 times, not exactly once — the caller's promise does
settle with the raw body, but the callback throws after `bail` without
returning, so `async-retry` still runs both retries. -/
theorem callGemini_400_counterexample :
    callGemini (fun _ => .resp 400 "bad request" none) =
        (.error "bad request", 3) ∧
      ¬ (callGemini (fun _ => .resp 400 "bad request" none)).2 = 1 :=
  ⟨rfl, by decide⟩

/-- C3 as amended: a first response with a 4xx status settles the call
immediately with the raw response body — no later attempt outcome can
change the settled result — but the endpoint is still fetched 3 times in
total when every attempt keeps answering 4xx, because the callback throws
after `bail` without returning; an endpoint that always returns 500, or
whose fetch always rejects at the network level, is likewise fetched
exactly 3 times (1 original + 2 retries) and surfaces the last error. -/
theorem callGemini_classification_amended :
    (∀ (env : Nat → FetchResult) (status : Nat) (body : String)
        (cand : Option String),
      env 0 = .resp status body cand → 400 ≤ status → status ≤ 499 →
        (callGemini env).1 = .error body) ∧
      (∀ (env : Nat → FetchResult) (statuses : Nat → Nat)
          (bodies : Nat → String) (cands : Nat → Option String),
        (∀ k, env k = .resp (statuses k) (bodies k) (cands k)) →
        (∀ k, 400 ≤ statuses k ∧ statuses k ≤ 499) →
          callGemini env = (.error (bodies 0), 3)) ∧
      (∀ (env : Nat → FetchResult) (body : String) (cand : Option String),
        (∀ k, env k = .resp 500 body cand) →
          callGemini env = (.error ("Gemini 500: " ++ body), 3)) ∧
      (∀ (env : Nat → FetchResult) (msg : String),
        (∀ k, env k = .netError msg) →
          callGemini env = (.error msg, 3)) := by
  refine ⟨?_, ?_, ?_, ?_⟩
  · intro env status body cand h0 h400 h499
    have he : geminiAttempt (env 0) =
        .bailThrew body ("Gemini " ++ toString status ++ ": " ++ body) := by
      rw [h0]
      exact geminiAttempt_4xx status body cand h400 h499
    show (retryRun env 0 2 ⟨none, [], 0⟩).settled.getD (.error "") = .error body
    rw [retryRun_bailThrew_step env 0 1 ⟨none, [], 0⟩ _ _ he,
      retryRun_settled_persist env 1 1 _ (.error body) rfl]
    rfl
  · intro env statuses bodies cands henv hst
    have he : ∀ k, geminiAttempt (env k) =
        .bailThrew (bodies k)
          ("Gemini " ++ toString (statuses k) ++ ": " ++ bodies k) := by
      intro k
      rw [henv k]
      exact geminiAttempt_4xx _ _ _ (hst k).1 (hst k).2
    unfold callGemini
    rw [retryRun_bailThrew_step env 0 1 ⟨none, [], 0⟩ _ _ (he 0),
      retryRun_bailThrew_step env 1 0 _ _ _ (he 1),
      retryRun_bailThrew_last env 2 _ _ _ (he 2)]
    rfl
  · intro env body cand h
    have he : ∀ k, geminiAttempt (env k) = .threw ("Gemini 500: " ++ body) := by
      intro k
      rw [h k]
      rfl
    unfold callGemini
    rw [retryRun_threw_step env 0 1 ⟨none, [], 0⟩ _ (he 0),
      retryRun_threw_step env 1 0 _ _ (he 1),
      retryRun_threw_last env 2 _ _ (he 2)]
    show ((settle ⟨none, ["Gemini 500: " ++ body, "Gemini 500: " ++ body,
        "Gemini 500: " ++ body], 3⟩
      (.error ((mainError ["Gemini 500: " ++ body, "Gemini 500: " ++ body,
        "Gemini 500: " ++ body]).getD ("Gemini 500: " ++ body)))).settled.getD
          (.error ""),
      (3 : Nat)) = (.error ("Gemini 500: " ++ body), 3)
    rw [mainError_three_same]
    rfl
  · intro env msg h
    have he : ∀ k, geminiAttempt (env k) = .threw msg := by
      intro k
      rw [h k]
      rfl
    unfold callGemini
    rw [retryRun_threw_step env 0 1 ⟨none, [], 0⟩ _ (he 0),
      retryRun_threw_step env 1 0 _ _ (he 1),
      retryRun_threw_last env 2 _ _ (he 2)]
    show ((settle ⟨none, [msg, msg, msg], 3⟩
      (.error ((mainError [msg, msg, msg]).getD msg))).settled.getD (.error ""),
      (3 : Nat)) = (.error msg, 3)
    rw [mainError_three_same]
    rfl

/-- Witness for `callGemini_classification_amended`: a stub always
answering 404 settles with its raw body; a stub always answering 500 is
fetched three times and surfaces the `Gemini 500` error. -/
theorem callGemini_classification_amended_witness :
    (callGemini (fun _ => .resp 404 "not found" none)).1 =
        .error "not found" ∧
      callGemini (fun _ => .resp 500 "oops" none) =
        (.error ("Gemini 500: " ++ "oops"), 3) :=
  ⟨callGemini_classification_amended.1 (fun _ => .resp 404 "not found" none)
      404 "not found" none rfl (by decide) (by decide),
    callGemini_classification_amended.2.2.1 (fun _ => .resp 500 "oops" none)
      "oops" none (fun _ => rfl)⟩

-- ------------------------------------------------------------------
-- Translation orchestrator (`translateToEnglish`, server/index.js 320-359)
-- ------------------------------------------------------------------

/-- Settled outcome of one chunk's translation task, as reported by
`Promise.allSettled`: fulfilled with the translated text, or rejected with
a reason. -/
inductive TranslationOutcome where
  | fulfilled (value : String)
  | rejected (reason : String)

/-- The per-chunk value the orchestrator keeps (server/index.js lines
346-354): the fulfilled value, or the empty string for a rejected chunk. -/
def settleValue : TranslationOutcome → String
  | .fulfilled v => v
  | .rejected _ => ""

/-- Completion-order model of the settled-results array: starting from an
index-aligned array of `outcomes.length` empty slots, each chunk whose
index comes next in the completion order `order` stores its settled value
at its own original index (never by appending in completion order). -/
def writeSlots (outcomes : List TranslationOutcome) (order : List Nat)
    (slots : List String) : List String :=
  order.foldl
    (fun acc i => acc.set i (settleValue (outcomes.getD i (.rejected "")))) slots

/-- The orchestrator's reassembly (server/index.js lines 345-357) under an
explicit completion order: collect each chunk's settled value at its
original index, then `join('\n').trim()`. -/
def assembleWithOrder (outcomes : List TranslationOutcome)
    (order : List Nat) : String :=
  jsTrim (String.intercalate "\n"
    (writeSlots outcomes order (List.replicate outcomes.length "")))

theorem writeSlots_getElem?_not_mem (o : List TranslationOutcome) :
    ∀ (order : List Nat) (slots : List String) (j : Nat), j ∉ order →
      (writeSlots o order slots)[j]? = slots[j]? := by
  intro order
  induction order with
  | nil =>
    intro slots j _
    rfl
  | cons i rest ih =>
    intro slots j h
    have hij : i ≠ j := fun he => h (he ▸ List.mem_cons_self i rest)
    have hrest : j ∉ rest := fun hm => h (List.mem_cons_of_mem _ hm)
    show (writeSlots o rest
      (slots.set i (settleValue (o.getD i (.rejected "")))))[j]? = slots[j]?
    rw [ih _ j hrest]
    exact List.getElem?_set_ne hij

theorem writeSlots_getElem?_mem (o : List TranslationOutcome) :
    ∀ (order : List Nat) (slots : List String) (j : Nat), j ∈ order →
      j < slots.length →
      (writeSlots o order slots)[j]? =
        some (settleValue (o.getD j (.rejected ""))) := by
  intro order
  induction order with
  | nil =>
    intro slots j h _
    exact absurd h (List.not_mem_nil j)
  | cons i rest ih =>
    intro slots j hmem hlt
    show (writeSlots o rest
      (slots.set i (settleValue (o.getD i (.rejected "")))))[j]? = _
    by_cases hjr : j ∈ rest
    · exact ih _ j hjr (by rw [List.length_set]; exact hlt)
    · have hij : j = i := by
        rcases List.mem_cons.mp hmem with h | h
        · exact h
        · exact absurd h hjr
      subst hij
      rw [writeSlots_getElem?_not_mem o rest _ j hjr]
      exact List.getElem?_set_self hlt

/-- Whatever order the chunk translations complete in, the slot array ends
up index-aligned with the outcomes. -/
theorem writeSlots_perm (o : List TranslationOutcome) (order : List Nat)
    (h : order.Perm (List.range o.length)) :
    writeSlots o order (List.replicate o.length "") = o.map settleValue := by
  apply List.ext_getElem?
  intro j
  by_cases hj : j < o.length
  · have hmem : j ∈ order := h.mem_iff.mpr (List.mem_range.mpr hj)
    rw [writeSlots_getElem?_mem o order _ j hmem
      (by rw [List.length_replicate]; exact hj)]
    rw [List.getElem?_map, List.getElem?_eq_getElem hj, Option.map_some']
    congr 1
    rw [List.getD_eq_getElem?_getD, List.getElem?_eq_getElem hj]
    rfl
  · have hmem : j ∉ order := fun hm =>
      hj (List.mem_range.mp (h.mem_iff.mp hm))
    rw [writeSlots_getElem?_not_mem o order _ j hmem,
      List.getElem?_replicate, if_neg hj, List.getElem?_map,
      List.getElem?_eq_none (Nat.le_of_not_lt hj)]
    rfl

/-- C1: the orchestrator's result is the per-chunk settled values placed
at their original chunk index — the empty string where a chunk's
translation was rejected — joined in index order with a newline separator
and trimmed, for every completion order of the chunk translations; no
individual rejection fails the batch. -/
theorem assembleWithOrder_eq_indexed_join (outcomes : List TranslationOutcome)
    (order : List Nat) (h : order.Perm (List.range outcomes.length)) :
    assembleWithOrder outcomes order =
      jsTrim (String.intercalate "\n" (outcomes.map settleValue)) ∧
      ∀ reason, settleValue (.rejected reason) = "" := by
  constructor
  · unfold assembleWithOrder
    rw [writeSlots_perm outcomes order h]
  · intro reason
    rfl

/-- Witness for `assembleWithOrder_eq_indexed_join`: three chunks whose
completions arrive in the order 2, 0, 1 and whose middle translation is
rejected still reassemble by original index. -/
theorem assembleWithOrder_eq_indexed_join_witness :
    assembleWithOrder
        [.fulfilled "Hello", .rejected "boom", .fulfilled "World"] [2, 0, 1] =
      jsTrim (String.intercalate "\n"
        ([.fulfilled "Hello", .rejected "boom",
          .fulfilled "World"].map settleValue)) :=
  (assembleWithOrder_eq_indexed_join
    [.fulfilled "Hello", .rejected "boom", .fulfilled "World"] [2, 0, 1]
    (by decide)).1

-- ------------------------------------------------------------------
-- Translation prompt selection (server/index.js lines 320-343)
-- ------------------------------------------------------------------

/-- The specialized Tamil legal/property prompt template (server/index.js
lines 331-334), with the chunk interpolated at the end. -/
def tamilPrompt (chunk : String) : String :=
  "Translate this Tamil legal/property text accurately to English.\n           Preserve numbers and formatting. Do not add commentary.\n           ---\n           "
    ++ chunk

/-- The generic translation prompt template (server/index.js lines
335-337), with the source language and the chunk interpolated. -/
def genericPrompt (sourceLang chunk : String) : String :=
  "Translate this " ++ sourceLang
    ++ " text to English accurately.\n           ---\n           " ++ chunk

/-- `const isTamil = sourceLang === 'ta' || sourceLang === 'auto'`
(server/index.js line 324). -/
def isTamil (sourceLang : String) : Bool :=
  sourceLang == "ta" || sourceLang == "auto"

/-- The prompt built for one chunk (server/index.js lines 330-337). -/
def translatePrompt (sourceLang chunk : String) : String :=
  if isTamil sourceLang then tamilPrompt chunk
  else genericPrompt sourceLang chunk

/-- The prompts the orchestrator dispatches, one per chunk of the input
text (server/index.js lines 322, 328-337). -/
def translatePrompts (text : String) (sourceLang : String) : List String :=
  (chunkText text.toList 15000).map
    (fun c => translatePrompt sourceLang c.asString)

/-- `translateToEnglish` (server/index.js lines 320-359) over the settled
outcome of each chunk's Gemini call: empty text short-circuits to the
empty string; otherwise the per-chunk settled values are joined in index
order with a newline and trimmed.  The source language only affects the
dispatched prompts (`translatePrompts`), not the reassembly. -/
def translateToEnglish (chunkOutcome : Nat → TranslationOutcome)
    (text : String) (sourceLang : String) : String :=
  if text.isEmpty then ""
  else
    jsTrim (String.intercalate "\n"
      ((List.range (chunkText text.toList 15000).length).map
        (fun i => settleValue (chunkOutcome i))))

/-- Counterexample to C7 as stated: with `sourceLanguage = "auto"` the
orchestrator builds the specialized Tamil legal/property prompt, not the
generic prompt (the two prompts differ). -/
theorem translatePrompt_auto_counterexample :
    translatePrompt "auto" "x" = tamilPrompt "x" ∧
      tamilPrompt "x" ≠ genericPrompt "auto" "x" :=
  ⟨rfl, by decide⟩

/-- C7 as amended: the specialized Tamil legal/property prompt is used
exactly when `sourceLang` is `"ta"` or the `"auto"` sentinel, and the
generic prompt is used for every other source language, uniformly over
all chunks of the input text. -/
theorem translatePrompt_branches (sourceLang chunk text : String) :
    ((sourceLang = "ta" ∨ sourceLang = "auto") →
        translatePrompt sourceLang chunk = tamilPrompt chunk) ∧
      (sourceLang ≠ "ta" → sourceLang ≠ "auto" →
        translatePrompt sourceLang chunk = genericPrompt sourceLang chunk) ∧
      (sourceLang ≠ "ta" → sourceLang ≠ "auto" →
        translatePrompts text sourceLang =
          (chunkText text.toList 15000).map
            (fun c => genericPrompt sourceLang c.asString)) := by
  have hfalse : sourceLang ≠ "ta" → sourceLang ≠ "auto" →
      isTamil sourceLang = false := by
    intro h1 h2
    unfold isTamil
    simp [h1, h2]
  refine ⟨?_, ?_, ?_⟩
  · intro h
    unfold translatePrompt
    rcases h with h | h <;> subst h <;> rfl
  · intro h1 h2
    unfold translatePrompt
    rw [hfalse h1 h2]
    simp
  · intro h1 h2
    unfold translatePrompts
    congr 1
    funext c
    unfold translatePrompt
    rw [hfalse h1 h2]
    simp

/-- Witness for `translatePrompt_branches`: `"ta"` selects the Tamil
prompt and `"hi"` the generic one. -/
theorem translatePrompt_branches_witness :
    translatePrompt "ta" "text" = tamilPrompt "text" ∧
      translatePrompt "hi" "text" = genericPrompt "hi" "text" :=
  ⟨(translatePrompt_branches "ta" "text" "").1 (Or.inl rfl),
    (translatePrompt_branches "hi" "text" "").2.1 (by decide) (by decide)⟩

-- ------------------------------------------------------------------
-- Transaction filter (`filterTransactions`, server/index.js 388-398)
-- ------------------------------------------------------------------

/-- JavaScript `s.toLowerCase()` on the character-list model. -/
def jsToLower (s : String) : String :=
  (s.toList.map Char.toLower).asString

/-- The optional query-string filters carried by
`/api/process-document` and `/api/search-documents` requests. -/
structure Query where
  buyer : Option String
  seller : Option String
  houseNumber : Option String
  surveyNumber : Option String
  documentNumber : Option String

/-- JavaScript truthiness of an optional string filter: an absent filter
and the empty string are both falsy in `!q.buyer`. -/
def provided : Option String → Bool
  | none => false
  | some s => !s.isEmpty

/-- Property access `t.key` on a parsed transaction record: reading a
property of `null` throws a TypeError, objects look the key up, and every
other value yields `undefined` (modelled as `none`). -/
def getFieldE : Json → String → Except String (Option Json)
  | .jnull, _ => .error "Cannot read properties of null"
  | .jobj fs, k => .ok (fs.lookup k)
  | _, _ => .ok none

/-- Total field access used by the spec-side filter definition. -/
def getField : Json → String → Option Json
  | .jobj fs, k => fs.lookup k
  | _, _ => none

/-- `t.key?.toLowerCase().includes(q.toLowerCase())`: `undefined` and
`null` short-circuit through `?.` to a falsy `undefined`; a string field
matches case-insensitively; any other value has no `toLowerCase` method
and throws. -/
def ciFieldMatch : Option Json → String → Except String Bool
  | none, _ => .ok false
  | some .jnull, _ => .ok false
  | some (.jstr s), q => .ok (strIncludes (jsToLower s) (jsToLower q))
  | some _, _ => .error "toLowerCase is not a function"

/-- `t.key?.includes(q)`: `undefined` and `null` short-circuit to a falsy
`undefined`; a string field matches by case-sensitive substring; an array
field uses `Array.prototype.includes`, matching a string element equal to
the filter; numbers, booleans and objects have no `includes` method and
throw. -/
def csFieldMatch : Option Json → String → Except String Bool
  | none, _ => .ok false
  | some .jnull, _ => .ok false
  | some (.jstr s), q => .ok (strIncludes s q)
  | some (.jarr xs), q =>
    .ok (xs.any fun e => match e with | .jstr s => s == q | _ => false)
  | some _, _ => .error "includes is not a function"

/-- One case-insensitive conjunct `(!q.f || t.key?.toLowerCase()...)` of
`filterTransactions`: an unprovided filter passes without touching the
record. -/
def condCI (t : Json) (key : String) (qv : Option String) :
    Except String Bool :=
  if provided qv then do
    let fv ← getFieldE t key
    ciFieldMatch fv (qv.getD "")
  else .ok true

/-- One case-sensitive conjunct `(!q.f || t.key?.includes(q.f))` of
`filterTransactions`. -/
def condCS (t : Json) (key : String) (qv : Option String) :
    Except String Bool :=
  if provided qv then do
    let fv ← getFieldE t key
    csFieldMatch fv (qv.getD "")
  else .ok true

/-- The predicate of `filterTransactions` (server/index.js lines
389-396), with JavaScript `&&` short-circuiting: a false conjunct stops
evaluation, and a thrown TypeError aborts the whole call. -/
def txMatches (t : Json) (q : Query) : Except String Bool := do
  let b1 ← condCI t "buyer" q.buyer
  if b1 then
    let b2 ← condCI t "seller" q.seller
    if b2 then
      let b3 ← condCS t "house_no" q.houseNumber
      if b3 then
        let b4 ← condCS t "survey_no" q.surveyNumber
        if b4 then condCS t "document_no" q.documentNumber
        else return false
      else return false
    else return false
  else return false

/-- `filterTransactions` (server/index.js lines 388-398): `Array.filter`
visits the records in order and keeps the matching ones; an exception in
the predicate aborts the call. -/
def filterTransactions (ts : List Json) (q : Query) :
    Except String (List Json) :=
  match ts with
  | [] => .ok []
  | t :: rest => do
    let b ← txMatches t q
    let r ← filterTransactions rest q
    return if b then t :: r else r

/-- The per-field match exactly as C6 words it, written from the spec:
every provided filter value must be a case-insensitive substring of the
record's corresponding field. -/
def specFieldMatch (fv : Option Json) (qv : Option String) : Bool :=
  !provided qv ||
    (match fv with
     | some (.jstr s) => strIncludes (jsToLower s) (jsToLower (qv.getD ""))
     | _ => false)

/-- The record predicate exactly as C6 words it (all five filters
case-insensitive, ANDed). -/
def specTxMatches (t : Json) (q : Query) : Bool :=
  specFieldMatch (getField t "buyer") q.buyer &&
    specFieldMatch (getField t "seller") q.seller &&
    specFieldMatch (getField t "house_no") q.houseNumber &&
    specFieldMatch (getField t "survey_no") q.surveyNumber &&
    specFieldMatch (getField t "document_no") q.documentNumber

/-- The filter exactly as C6 words it. -/
def specFilter (ts : List Json) (q : Query) : List Json :=
  ts.filter (fun t => specTxMatches t q)

/-- A case-sensitive per-field match (for the house, survey and document
number filters as the code actually treats them). -/
def amendedFieldCS (fv : Option Json) (qv : Option String) : Bool :=
  !provided qv ||
    (match fv with
     | some (.jstr s) => strIncludes s (qv.getD "")
     | _ => false)

/-- The record predicate as amended: buyer and seller case-insensitive,
the three number filters case-sensitive. -/
def amendedTxMatches (t : Json) (q : Query) : Bool :=
  specFieldMatch (getField t "buyer") q.buyer &&
    specFieldMatch (getField t "seller") q.seller &&
    amendedFieldCS (getField t "house_no") q.houseNumber &&
    amendedFieldCS (getField t "survey_no") q.surveyNumber &&
    amendedFieldCS (getField t "document_no") q.documentNumber

/-- A record all of whose fields hold strings — the shape the extraction
prompt requests of the model. -/
def stringyTx : Json → Bool
  | .jobj fs =>
    fs.all (fun p => match p.2 with | .jstr _ => true | _ => false)
  | _ => false

/-- A record whose house-number field is the case-sensitivity mismatch
input: `house_no = "12A"`. -/
def txHouse12A : Json := .jobj [("house_no", .jstr "12A")]

/-- A house-number filter `"a"` that matches `"12A"` only
case-insensitively. -/
def qHouseLower : Query := ⟨none, none, some "a", none, none⟩

/-- Counterexample to C6 as stated: on the record with `house_no = "12A"`
and the filter `houseNumber = "a"`, the code's filter (case-sensitive
`includes` on house numbers) drops the record while the claimed
all-case-insensitive semantics keeps it. -/
theorem filterTransactions_case_counterexample :
    filterTransactions [txHouse12A] qHouseLower = .ok [] ∧
      specFilter [txHouse12A] qHouseLower = [txHouse12A] :=
  ⟨rfl, rfl⟩

/-- On a record whose fields are all strings, the lookup of any key is
either absent or a string. -/
theorem stringy_lookup (fs : List (String × Json))
    (h : stringyTx (.jobj fs) = true) (k : String) (v : Json)
    (hv : fs.lookup k = some v) : ∃ s, v = .jstr s := by
  obtain ⟨l₁, l₂, heq, _⟩ := List.lookup_eq_some_iff.mp hv
  have hmem : (k, v) ∈ fs := by
    rw [heq]
    exact List.mem_append_right _ (List.mem_cons_self _ _)
  unfold stringyTx at h
  rw [List.all_eq_true] at h
  have := h (k, v) hmem
  revert this
  cases v <;> simp

theorem condCI_stringy (fs : List (String × Json))
    (h : stringyTx (.jobj fs) = true) (k : String) (qv : Option String) :
    condCI (.jobj fs) k qv =
      .ok (specFieldMatch (getField (.jobj fs) k) qv) := by
  unfold condCI specFieldMatch getField
  cases hp : provided qv with
  | false => simp [hp]
  | true =>
    rw [if_pos rfl]
    cases hlk : fs.lookup k with
    | none =>
      simp only [getFieldE, hlk]
      rfl
    | some v =>
      obtain ⟨sv, rfl⟩ := stringy_lookup fs h k v hlk
      simp only [getFieldE, hlk]
      rfl

theorem condCS_stringy (fs : List (String × Json))
    (h : stringyTx (.jobj fs) = true) (k : String) (qv : Option String) :
    condCS (.jobj fs) k qv =
      .ok (amendedFieldCS (getField (.jobj fs) k) qv) := by
  unfold condCS amendedFieldCS getField
  cases hp : provided qv with
  | false => simp [hp]
  | true =>
    rw [if_pos rfl]
    cases hlk : fs.lookup k with
    | none =>
      simp only [getFieldE, hlk]
      rfl
    | some v =>
      obtain ⟨sv, rfl⟩ := stringy_lookup fs h k v hlk
      simp only [getFieldE, hlk]
      rfl

/-- On all-string records the code's predicate settles without throwing,
to the amended boolean predicate. -/
theorem txMatches_stringy (t : Json) (q : Query) (h : stringyTx t = true) :
    txMatches t q = .ok (amendedTxMatches t q) := by
  obtain ⟨fs, rfl⟩ : ∃ fs, t = .jobj fs := by
    cases t <;> simp [stringyTx] at h ⊢
  unfold txMatches amendedTxMatches
  rw [condCI_stringy fs h "buyer" q.buyer,
    condCI_stringy fs h "seller" q.seller,
    condCS_stringy fs h "house_no" q.houseNumber,
    condCS_stringy fs h "survey_no" q.surveyNumber,
    condCS_stringy fs h "document_no" q.documentNumber]
  cases specFieldMatch (getField (.jobj fs) "buyer") q.buyer <;>
    cases specFieldMatch (getField (.jobj fs) "seller") q.seller <;>
    cases amendedFieldCS (getField (.jobj fs) "house_no") q.houseNumber <;>
    cases amendedFieldCS (getField (.jobj fs) "survey_no") q.surveyNumber <;>
    cases amendedFieldCS (getField (.jobj fs) "document_no") q.documentNumber <;>
    rfl

/-- C6 as amended: on records whose fields are strings, the filter keeps
exactly the records for which every provided buyer/seller filter is a
case-insensitive substring of the corresponding field and every provided
house/survey/document number filter is a case-sensitive substring of the
corresponding field, unset filters passing every record. -/
theorem filterTransactions_amended :
    ∀ (ts : List Json) (q : Query), (∀ t ∈ ts, stringyTx t = true) →
      filterTransactions ts q =
        .ok (ts.filter (fun t => amendedTxMatches t q)) := by
  intro ts q
  induction ts with
  | nil =>
    intro _
    rfl
  | cons t rest ih =>
    intro h
    have ht := h t (List.mem_cons_self t rest)
    have hrest := ih (fun x hx => h x (List.mem_cons_of_mem _ hx))
    show (do
      let b ← txMatches t q
      let r ← filterTransactions rest q
      return if b then t :: r else r) = _
    rw [txMatches_stringy t q ht, hrest]
    cases hb : amendedTxMatches t q <;> simp [List.filter_cons, hb] <;> rfl

/-- Witness for `filterTransactions_amended`: records with buyers
`"A Kumar"` and `"B Singh"` filtered with `buyer = "kumar"` keep exactly
the first record. -/
theorem filterTransactions_amended_witness :
    filterTransactions
        [.jobj [("buyer", .jstr "A Kumar")], .jobj [("buyer", .jstr "B Singh")]]
        ⟨some "kumar", none, none, none, none⟩ =
      .ok [.jobj [("buyer", .jstr "A Kumar")]] :=
  (filterTransactions_amended
      [.jobj [("buyer", .jstr "A Kumar")], .jobj [("buyer", .jstr "B Singh")]]
      ⟨some "kumar", none, none, none, none⟩ (by decide)).trans (by rfl)

-- ------------------------------------------------------------------
-- Search endpoint filter (`/api/search-documents`, server/index.js 497-522)
-- ------------------------------------------------------------------

/-- `x.toString()` for a non-null array element (JS `Array.prototype.toString`
joins with commas, rendering `null` elements as empty). Nested arrays and
objects are approximated (`""` / `"[object Object]"`); no theorem
exercises them. -/
def jsToStringAtom : Json → String
  | .jnull => ""
  | .jbool b => cond b "true" "false"
  | .jnum n => toString n
  | .jstr s => s
  | .jarr _ => ""
  | .jobj _ => "[object Object]"

/-- `x.toString()` on a field value: defined on every value the search
filter can reach (its truthiness guard excludes `null`/`undefined`). -/
def jsToString : Json → String
  | .jnull => "null"
  | .jbool b => cond b "true" "false"
  | .jnum n => toString n
  | .jstr s => s
  | .jarr xs => String.intercalate "," (xs.map jsToStringAtom)
  | .jobj _ => "[object Object]"

/-- One buyer/seller conjunct of the search endpoint's predicate,
`(!q || (t.buyer && t.buyer.toLowerCase().includes(q.toLowerCase())))`
(server/index.js lines 514-515): the truthiness guard replaces the `?.`
of `filterTransactions`, but a truthy non-string still has no
`toLowerCase`. -/
def searchCondCI (t : Json) (key : String) (qv : Option String) :
    Except String Bool :=
  if provided qv then do
    let fv ← getFieldE t key
    if truthy fv then
      match fv with
      | some (.jstr s) =>
        .ok (strIncludes (jsToLower s) (jsToLower (qv.getD "")))
      | _ => .error "toLowerCase is not a function"
    else .ok false
  else .ok true

/-- One number-field conjunct of the search endpoint's predicate,
`(!q || (t.house_no && t.house_no.toString().includes(q)))`
(server/index.js lines 516-518): the `toString()` coercion exists on
every truthy value, so this conjunct never throws. -/
def searchCondStr (t : Json) (key : String) (qv : Option String) :
    Except String Bool :=
  if provided qv then do
    let fv ← getFieldE t key
    if truthy fv then
      match fv with
      | some v => .ok (strIncludes (jsToString v) (qv.getD ""))
      | none => .ok false
    else .ok false
  else .ok true

/-- The per-transaction predicate of the search endpoint (server/index.js
lines 512-519), with `&&` short-circuiting. -/
def searchTxMatches (t : Json) (q : Query) : Except String Bool := do
  let b1 ← searchCondCI t "buyer" q.buyer
  if b1 then
    let b2 ← searchCondCI t "seller" q.seller
    if b2 then
      let b3 ← searchCondStr t "house_no" q.houseNumber
      if b3 then
        let b4 ← searchCondStr t "survey_no" q.surveyNumber
        if b4 then searchCondStr t "document_no" q.documentNumber
        else return false
      else return false
    else return false
  else return false

/-- `doc.parsed_data.some(transaction => …)`: the transactions are tried
in order, a throw aborts. -/
def someMatches : List Json → Query → Except String Bool
  | [], _ => .ok false
  | t :: rest, q => do
    let b ← searchTxMatches t q
    if b then return true else someMatches rest q

/-- Whether at least one transaction-field filter is provided
(`buyer || seller || houseNumber || surveyNumber || documentNumber`). -/
def anyTxFilter (q : Query) : Bool :=
  provided q.buyer || provided q.seller || provided q.houseNumber ||
    provided q.surveyNumber || provided q.documentNumber

/-- The per-document predicate of the search endpoint (server/index.js
lines 508-521): with no transaction filter the document list is returned
unfiltered; otherwise a document whose `parsed_data` is falsy or not an
array passes unconditionally, and an array must contain some matching
transaction. -/
def searchDocPasses (parsed : Option Json) (q : Query) :
    Except String Bool :=
  if anyTxFilter q then
    if truthy parsed then
      match parsed with
      | some (.jarr txs) => someMatches txs q
      | _ => .ok true
    else .ok true
  else .ok true

/-- C10: under at least one transaction-field filter, a completed document
with missing (or null, or non-array) `parsed_data` is included in the
search results unconditionally, while a document whose `parsed_data` is
the empty array is excluded. -/
theorem searchDocPasses_missing_vs_empty (q : Query)
    (h : anyTxFilter q = true) :
    searchDocPasses none q = .ok true ∧
      (∀ j, isArrayJ j = false → searchDocPasses (some j) q = .ok true) ∧
      searchDocPasses (some (.jarr [])) q = .ok false := by
  refine ⟨?_, ?_, ?_⟩
  · unfold searchDocPasses
    rw [if_pos h]
    rfl
  · intro j hj
    unfold searchDocPasses
    rw [if_pos h]
    split
    · cases j <;> first | rfl | simp [isArrayJ] at hj
    · rfl
  · unfold searchDocPasses
    rw [if_pos h]
    rfl

/-- Witness for `searchDocPasses_missing_vs_empty` at a buyer filter
`"x"`: a document without `parsed_data` passes, one with an empty
`parsed_data` array does not. -/
theorem searchDocPasses_missing_vs_empty_witness :
    searchDocPasses none ⟨some "x", none, none, none, none⟩ = .ok true ∧
      searchDocPasses (some (.jstr "oops"))
        ⟨some "x", none, none, none, none⟩ = .ok true ∧
      searchDocPasses (some (.jarr []))
        ⟨some "x", none, none, none, none⟩ = .ok false :=
  ⟨(searchDocPasses_missing_vs_empty _ (by decide)).1,
    (searchDocPasses_missing_vs_empty _ (by decide)).2.1 (.jstr "oops") rfl,
    (searchDocPasses_missing_vs_empty _ (by decide)).2.2⟩

-- ------------------------------------------------------------------
-- Document pipeline (`/api/process-document`, server/index.js 401-464)
-- ------------------------------------------------------------------

/-- `langMap` (server/index.js line 266): the 3-letter allow-list. -/
def langMap3 (code3 : String) : Option String :=
  if code3 = "tam" then some "ta"
  else if code3 = "hin" then some "hi"
  else if code3 = "eng" then some "en"
  else none

/-- `detectLangISO1` (server/index.js lines 267-271) over the `franc`
statistical detector as a primitive: short or absent text yields the
`"auto"` sentinel, and any 3-letter code outside the allow-list also
falls back to `"auto"`. -/
def detectLangISO1 (francFn : String → String) (text : String) : String :=
  if text.isEmpty || (trimChars text.toList).length < 20 then "auto"
  else (langMap3 (francFn text)).getD "auto"

/-- The external effects one `/api/process-document` invocation consumes:
the `franc` detector, the storage download, the `pdf-parse` text
extraction, the settled translation outcome of each chunk, the Gemini
response of the field-extraction call, and `JSON.parse`. -/
structure PipelineEnv where
  franc : String → String
  download : Except String String
  pdfText : String → Except String String
  chunkOutcome : Nat → TranslationOutcome
  extractGemini : Except String String
  parse : String → Option Json

/-- One `supabaseAdmin.from('documents').update({...})` payload: which
columns the update writes (`none` = column not written). -/
structure DbUpdate where
  processing_status : String
  original_text : Option String
  translated_text : Option String
  detected_language : Option String
  parsed_data : Option (List Json)

/-- The initial `processing` mark (server/index.js lines 408-411). -/
def mkProcessing : DbUpdate := ⟨"processing", none, none, none, none⟩

/-- The catch-block update (server/index.js lines 455-461): only the
status column is written, no rollback of text columns. -/
def mkFailed : DbUpdate := ⟨"failed", none, none, none, none⟩

/-- The single success update (server/index.js lines 434-444): original
text, translated text, detected language, filtered records and the
`completed` status in one write. -/
def mkCompleted (original translated detected : String)
    (parsed : List Json) : DbUpdate :=
  ⟨"completed", some original, some translated, some detected, some parsed⟩

/-- The `/api/process-document` handler (server/index.js lines 401-464):
the list of document-table updates it performs, in order, and the HTTP
status it answers.  Missing `documentId`/`filePath` is rejected with 400
before any write; any exception thrown by the steps inside the `try` is
caught, writes the `failed` status and answers 500. -/
def processDocument (env : PipelineEnv) (hasDocumentId hasFilePath : Bool)
    (q : Query) : List DbUpdate × Nat :=
  if !(hasDocumentId && hasFilePath) then ([], 400)
  else
    match env.download with
    | .error _ => ([mkProcessing, mkFailed], 500)
    | .ok buf =>
      match env.pdfText buf with
      | .error _ => ([mkProcessing, mkFailed], 500)
      | .ok originalText =>
        let detected := detectLangISO1 env.franc originalText
        let translated := translateToEnglish env.chunkOutcome originalText detected
        match extractTransactionFields env.parse env.extractGemini with
        | .error _ => ([mkProcessing, mkFailed], 500)
        | .ok transactions =>
          match filterTransactions transactions q with
          | .error _ => ([mkProcessing, mkFailed], 500)
          | .ok filtered =>
            ([mkProcessing, mkCompleted originalText translated detected filtered],
              200)

/-- C2: every invocation with both identifiers ends in exactly one
terminal write — either the full success update (original text, translated
text, detected language, filtered records, status `completed`, all in one
write) answered with 200, or the status-only `failed` update answered
with 500 — and the only other write is the initial `processing` mark; the
failure update touches no text column. -/
theorem processDocument_one_terminal_write (env : PipelineEnv) (q : Query) :
    ((∃ o t d p, processDocument env true true q =
          ([mkProcessing, mkCompleted o t d p], 200)) ∨
        processDocument env true true q = ([mkProcessing, mkFailed], 500)) ∧
      mkProcessing = ⟨"processing", none, none, none, none⟩ ∧
      mkFailed = ⟨"failed", none, none, none, none⟩ ∧
      ∀ o t d p, mkCompleted o t d p =
        ⟨"completed", some o, some t, some d, some p⟩ := by
  refine ⟨?_, rfl, rfl, fun _ _ _ _ => rfl⟩
  cases hdl : env.download with
  | error e =>
    right
    simp [processDocument, hdl]
  | ok buf =>
    cases hpdf : env.pdfText buf with
    | error e =>
      right
      simp [processDocument, hdl, hpdf]
    | ok originalText =>
      cases hext : extractTransactionFields env.parse env.extractGemini with
      | error e =>
        right
        simp [processDocument, hdl, hpdf, hext]
      | ok txs =>
        cases hfil : filterTransactions txs q with
        | error e =>
          right
          simp [processDocument, hdl, hpdf, hext, hfil]
        | ok filtered =>
          left
          exact ⟨originalText,
            translateToEnglish env.chunkOutcome originalText
              (detectLangISO1 env.franc originalText),
            detectLangISO1 env.franc originalText, filtered,
            by simp [processDocument, hdl, hpdf, hext, hfil]⟩

-- ------------------------------------------------------------------
-- C9: numeric number-fields crash the pipeline filter but not the search
-- ------------------------------------------------------------------

/-- A record whose house-number field is a JSON number, as the model may
well return (`house_no: 12`). -/
def txHouseNum : Json := .jobj [("house_no", .jnum 12)]

/-- A house-number filter that reaches the numeric field. -/
def qHouseNum : Query := ⟨none, none, some "1", none, none⟩

/-- A pipeline environment in which every step up to and including field
extraction succeeds and extraction yields the numeric-house record. -/
def envHouseNum : PipelineEnv :=
  ⟨fun _ => "eng", .ok "pdfbytes",
    fun _ => .ok "a scanned deed with well over twenty characters",
    fun _ => .fulfilled "translated text", .ok "[]",
    fun _ => some (.jarr [txHouseNum])⟩

/-- C9: with a provided house-number filter and a record whose `house_no`
is a JSON number, `filterTransactions` throws the `includes is not a
function` TypeError, which makes the whole `/api/process-document`
invocation fail (status-only `failed` write, HTTP 500) even though
extraction succeeded; the search endpoint's analogous filter instead
coerces the field with `toString()` and matches without throwing. -/
theorem numeric_field_typeerror_divergence :
    filterTransactions [txHouseNum] qHouseNum =
        .error "includes is not a function" ∧
      searchDocPasses (some (.jarr [txHouseNum])) qHouseNum = .ok true ∧
      processDocument envHouseNum true true qHouseNum =
        ([mkProcessing, mkFailed], 500) :=
  ⟨rfl, rfl, rfl⟩

end PdfProfessor
